import Mathlib

/-!
Verification of the auto-tuner engine specified by this repository's design
document, together with the CUDA kernels written by the tutorial notebook
(`kernel.cu`, `kernel2d.cu`, `kernel2dw.cu`).

The notebook itself is glue code calling an external `tune_kernel` library;
the engine components (Configuration Space Builder, Launch Feasibility
Filter, Benchmark Executor, Search Strategy, Result Cache) are modelled
from the specification's component contracts.  The CUDA kernels, by
contrast, are source files written verbatim by the notebook and are
embedded here directly from that source.
-/

namespace KernelTuner

/-! ## Data model: parameter spaces, configurations, restrictions -/

/-- A Configuration: a mapping from parameter name to one concrete value,
kept as an association list in parameter-insertion order (as in the
notebook's `dict`/`OrderedDict` of tunable parameters). -/
abbrev Config := List (String × Nat)

/-- A Parameter Space: mapping from parameter name to an ordered sequence of
candidate values, e.g. `tune_params["block_size_x"] = [32, 64, 128, 256, 512]`. -/
abbrev ParamSpace := List (String × List Nat)

/-- Arithmetic expression over parameter names, as appears inside a
restriction string such as `"work_per_thread_x >= loop_unroll_factor_0"`. -/
inductive RExpr where
  | const : Int → RExpr
  | var : String → RExpr
  | add : RExpr → RExpr → RExpr
  | mul : RExpr → RExpr → RExpr
deriving DecidableEq, Repr

/-- Modelled from the spec: a Restriction is "a boolean expression over
parameter names; a Configuration is valid only if all restrictions evaluate
true" (the notebook passes them as comparison strings). -/
inductive Restriction where
  | ge : RExpr → RExpr → Restriction
  | le : RExpr → RExpr → Restriction
  | eq : RExpr → RExpr → Restriction
deriving DecidableEq, Repr

/-- Names referenced by an arithmetic expression. -/
def RExpr.vars : RExpr → List String
  | .const _ => []
  | .var s => [s]
  | .add a b => a.vars ++ b.vars
  | .mul a b => a.vars ++ b.vars

/-- Names referenced by a restriction. -/
def Restriction.vars : Restriction → List String
  | .ge a b => a.vars ++ b.vars
  | .le a b => a.vars ++ b.vars
  | .eq a b => a.vars ++ b.vars

/-- Look a parameter up in a configuration (first binding wins). -/
def lookupParam (cfg : Config) (s : String) : Option Nat :=
  match cfg with
  | [] => none
  | (n, v) :: rest => if n = s then some v else lookupParam rest s

/-- Evaluate an expression over a configuration; `none` when a referenced
parameter is undefined. -/
def RExpr.eval (cfg : Config) : RExpr → Option Int
  | .const z => some z
  | .var s => (lookupParam cfg s).map (fun v => (v : Int))
  | .add a b => match a.eval cfg, b.eval cfg with
      | some x, some y => some (x + y)
      | _, _ => none
  | .mul a b => match a.eval cfg, b.eval cfg with
      | some x, some y => some (x * y)
      | _, _ => none

/-- Evaluate a restriction over a configuration; `none` when a referenced
parameter is undefined. -/
def Restriction.eval (cfg : Config) : Restriction → Option Bool
  | .ge a b => match a.eval cfg, b.eval cfg with
      | some x, some y => some (decide (y ≤ x))
      | _, _ => none
  | .le a b => match a.eval cfg, b.eval cfg with
      | some x, some y => some (decide (x ≤ y))
      | _, _ => none
  | .eq a b => match a.eval cfg, b.eval cfg with
      | some x, some y => some (decide (x = y))
      | _, _ => none

/-- A restriction holds of a configuration when it evaluates to `true`. -/
def Restriction.holds (r : Restriction) (cfg : Config) : Prop :=
  r.eval cfg = some true

instance (r : Restriction) (cfg : Config) : Decidable (r.holds cfg) := by
  unfold Restriction.holds; infer_instance

/-! ## Configuration Space Builder -/

/-- The Cartesian product of the parameter value lists, enumerated in
parameter-insertion order (first parameter varies slowest, exactly as
`itertools.product` over the ordered dict of tunable parameters). -/
def cartesian : ParamSpace → List Config
  | [] => [[]]
  | (name, vals) :: rest =>
      vals.flatMap (fun v => (cartesian rest).map (fun cfg => (name, v) :: cfg))

/-- Number of times a configuration occurs in an emitted list. -/
def countCfg (cfg : Config) (l : List Config) : Nat :=
  (l.filter (fun c => decide (c = cfg))).length

/-- Whether every parameter name referenced by the restrictions is defined
in the parameter space. -/
def varsDefined (ps : ParamSpace) (rs : List Restriction) : Bool :=
  rs.all (fun r => r.vars.all (fun s => ps.any (fun p => p.1 = s)))

/-- Modelled from the spec: the missing `ConfigurationError` of the external
library — "malformed restriction/parameter reference, fatal". -/
inductive ConfigError where
  | undefinedParameter
deriving DecidableEq, Repr

/-- Modelled from the spec: the missing Configuration Space Builder of the
external library — enumerates the Cartesian product in parameter-insertion
order, yields only configurations satisfying all restrictions (invalid
combinations are never yielded), and fails with `ConfigurationError` if a
restriction references an undefined parameter name. -/
def buildConfigSpace (ps : ParamSpace) (rs : List Restriction) :
    Except ConfigError (List Config) :=
  if varsDefined ps rs then
    .ok ((cartesian ps).filter (fun cfg => rs.all (fun r => decide (r.holds cfg))))
  else
    .error .undefinedParameter

/-! ## Grid-divisor ceiling division -/

/-- Modelled from the spec: the missing grid-size computation of the
external library — "the result of this division is ceiled to the nearest
integer": number of thread blocks in a dimension for problem size `p` and
divisor product `d`. -/
def gridDim (p d : Nat) : Nat := (p + d - 1) / d

/-- Product of the values that a configuration assigns to the parameters in
a grid-divisor list (e.g. `grid_div_x = ["block_size_x", "work_per_thread_x"]`). -/
def divisorProduct (cfg : Config) (names : List String) : Nat :=
  names.foldl (fun acc s => acc * (lookupParam cfg s).getD 1) 1

/-- Modelled from the spec: number of thread blocks in one dimension,
ceiling-dividing the problem size by the grid-divisor product. -/
def gridBlocks (cfg : Config) (names : List String) (p : Nat) : Nat :=
  gridDim p (divisorProduct cfg names)

/-! ## Launch Feasibility Filter and Benchmark Executor pipeline -/

/-- Target-device descriptor, queried from the accelerator driver:
max threads per block, max shared memory, max registers. -/
structure DeviceDescriptor where
  maxThreads : Nat
  maxShared : Nat
  maxRegisters : Nat
deriving DecidableEq, Repr

/-- Skip-reason categories emitted by the Launch Feasibility Filter. -/
inductive FeasReason where
  | tooManyThreads
  | tooMuchSharedMemory
  | tooManyRegisters
deriving DecidableEq, Repr

/-- Threads per block of a configuration: the product of the
`block_size_x/y/z` parameters (a missing dimension counts as 1). -/
def threadsPerBlock (cfg : Config) : Nat :=
  ((lookupParam cfg "block_size_x").getD 1) *
  ((lookupParam cfg "block_size_y").getD 1) *
  ((lookupParam cfg "block_size_z").getD 1)

/-- Per-configuration compile/launch resource demand, as reported by the
external compiler for this configuration. -/
structure ResourceDemand where
  sharedMem : Nat
  registers : Nat
deriving DecidableEq, Repr

/-- Modelled from the spec: the missing Launch Feasibility Filter of the
external library — rejects configurations exceeding device limits before
any compilation is attempted, emitting a skip reason in one of the
categories too-many-threads, too-much-shared-memory, too-many-registers;
`none` means the configuration is feasible. -/
def feasibilityCheck (dev : DeviceDescriptor) (cfg : Config)
    (demand : ResourceDemand) : Option FeasReason :=
  if dev.maxThreads < threadsPerBlock cfg then some .tooManyThreads
  else if dev.maxShared < demand.sharedMem then some .tooMuchSharedMemory
  else if dev.maxRegisters < demand.registers then some .tooManyRegisters
  else none

/-- A Benchmark Result: measured time (mean over the repeated trials plus
all raw samples) and the derived metric values, per Configuration. -/
structure BenchResult where
  time : ℚ
  samples : List ℚ
  metricValues : List (String × ℚ)
deriving DecidableEq, Repr

/-- Non-fatal failure modes of the Benchmark Executor. -/
inductive RunError where
  | compileError : String → RunError
  | launchError : RunError
deriving DecidableEq, Repr

/-- Outcome recorded for one configuration: a result, or a skip with a
reason (feasibility reject, compile failure, or launch failure). -/
inductive Outcome where
  | ok : BenchResult → Outcome
  | skippedFeasibility : FeasReason → Outcome
  | skippedCompile : String → Outcome
  | skippedLaunch : Outcome
deriving DecidableEq, Repr

/-- Modelled from the spec: per-configuration processing of the missing
tuning engine — the Launch Feasibility Filter runs first and a rejection
short-circuits (the Benchmark Executor `exec` is never invoked); otherwise
`exec` runs and a `CompileError` or `LaunchError` is caught and recorded as
a skip, never raised. -/
def processConfig (dev : DeviceDescriptor)
    (exec : Config → Except RunError BenchResult)
    (demand : Config → ResourceDemand) (cfg : Config) : Outcome :=
  match feasibilityCheck dev cfg (demand cfg) with
  | some reason => .skippedFeasibility reason
  | none =>
      match exec cfg with
      | .error (.compileError msg) => .skippedCompile msg
      | .error .launchError => .skippedLaunch
      | .ok r => .ok r

/-- Modelled from the spec: the missing `tune_kernel` driver of the external
library — builds the configuration space (aborting with `ConfigurationError`
before any benchmarking if a restriction references an undefined parameter),
then processes every configuration in order, recording each outcome and
continuing over the remaining configurations after non-fatal failures. -/
def tuneKernel (ps : ParamSpace) (rs : List Restriction)
    (dev : DeviceDescriptor) (exec : Config → Except RunError BenchResult)
    (demand : Config → ResourceDemand) :
    Except ConfigError (List (Config × Outcome)) :=
  match buildConfigSpace ps rs with
  | .error e => .error e
  | .ok cfgs => .ok (cfgs.map (fun cfg => (cfg, processConfig dev exec demand cfg)))

/-! ## Result Cache -/

/-- Problem identity: the tuned kernel plus the problem size the results
were measured for. -/
structure ProblemId where
  kernelName : String
  problemSize : List Nat
deriving DecidableEq, Repr

/-- One persisted cache entry: (problem identity, Configuration) ↦ result. -/
abbrev CacheEntry := ProblemId × Config × BenchResult

/-- Look a configuration up in the cache; a stored result is found only for
an entry whose problem identity and configuration both match exactly. -/
def lookupCache (cache : List CacheEntry) (pid : ProblemId) (cfg : Config) :
    Option BenchResult :=
  match cache with
  | [] => none
  | e :: rest =>
      if e.1 = pid ∧ e.2.1 = cfg then some e.2.2 else lookupCache rest pid cfg

/-- Modelled from the spec: the missing cached tuning loop of the external
library — before invoking the Benchmark Executor for a configuration the
cache is checked; a hit short-circuits execution and reuses the stored
result, a miss runs the executor and appends the new entry.  Returns the
final cache together with the number of Benchmark Executor invocations. -/
def tuneWithCache (exec : Config → BenchResult) (pid : ProblemId)
    (cfgs : List Config) (cache : List CacheEntry) :
    List CacheEntry × Nat :=
  match cfgs with
  | [] => (cache, 0)
  | cfg :: rest =>
      match lookupCache cache pid cfg with
      | some _ => tuneWithCache exec pid rest cache
      | none =>
          ((tuneWithCache exec pid rest ((pid, cfg, exec cfg) :: cache)).1,
           (tuneWithCache exec pid rest ((pid, cfg, exec cfg) :: cache)).2 + 1)

/-! ## Search Strategies -/

/-- Modelled from the spec: the missing exhaustive Search Strategy of the
external library — emits every valid configuration of the space, in
enumeration order. -/
def exhaustiveStrategy (space : List Config) : List Config := space

/-- One step of a linear congruential generator (Numerical Recipes
constants, 32-bit state), standing in for the library's seeded RNG. -/
def lcgNext (s : Nat) : Nat := (1664525 * s + 1013904223) % 2 ^ 32

/-- Modelled from the spec: a stochastic Search Strategy (random sample) of
the missing external library — draws `budget` configurations from the space
using the seeded generator; deterministic given the seed. -/
def randomSampleStrategy (seed : Nat) (space : List Config) (budget : Nat) :
    List Config :=
  match budget with
  | 0 => []
  | b + 1 =>
      match space with
      | [] => []
      | c :: cs =>
          ((c :: cs).getD (lcgNext seed % (cs.length + 1)) c) ::
            randomSampleStrategy (lcgNext seed) (c :: cs) b

/-! ## Derived metrics -/

/-- A result record under construction: benchmark fields (e.g. `"time"`)
and tunable-parameter values, plus the derived metrics computed so far. -/
abbrev MetricRecord := List (String × ℚ)

/-- One user-defined metric: its name and the function evaluating it over
the record built so far (the notebook's `lambda p: ...`). -/
abbrev Metric := String × (MetricRecord → ℚ)

/-- Modelled from the spec: the missing metrics evaluator of the external
library — evaluates each metric expression in declaration order, inserting
each result into the record before the next metric is evaluated, so later
metrics may read earlier metrics' results. -/
def evalMetrics (ms : List Metric) (rec : MetricRecord) : MetricRecord :=
  match ms with
  | [] => rec
  | (name, f) :: rest => evalMetrics rest (rec ++ [(name, f rec)])

/-- Look a field of a result record up by name (first binding wins, as in
the library's result dictionary). -/
def lookupVal (rec : MetricRecord) (s : String) : Option ℚ :=
  match rec with
  | [] => none
  | e :: rest => if e.1 = s then some e.2 else lookupVal rest s

/-- The notebook's ordered metrics for the `n = m = 10^4` problem:
`GFLOP/s = (n*m/1e9) / (time/1000)`, `time_s = time/1e3`, and the composed
`GB/s = (n*m*2*4/1e9) / time_s`, which reads the earlier `time_s` metric. -/
def notebookMetrics : List Metric :=
  [("GFLOP/s", fun p =>
      ((100000000 : ℚ) / 1000000000) / ((lookupVal p "time").getD 0 / 1000)),
   ("time_s", fun p => (lookupVal p "time").getD 0 / 1000),
   ("GB/s", fun p =>
      ((100000000 : ℚ) * 2 * 4 / 1000000000) / (lookupVal p "time_s").getD 0)]

/-! ## The notebook's CUDA kernels

`kernel2d.cu` and `kernel2dw.cu` are written verbatim by the notebook's
`%%writefile` cells.  Arrays are modelled as total functions `Nat → α`; a
kernel execution is the fold of every thread's (guarded) store over the
whole launch grid.  Each store writes `a[idx] + b[idx]` at `idx`, so the
write value is a function of the target index alone and the fold's result
is order-independent. -/

/-- Functional store: `c` with index `idx` updated to `v`. -/
def store {α : Type} (c : Nat → α) (idx : Nat) (v : α) : Nat → α :=
  fun k => if k = idx then v else c k

/-- Run a list of write events, each storing `f idx` at `idx`, over an
initial array `c`. -/
def runWrites {α : Type} (f : Nat → α) (c : Nat → α) (idxs : List Nat) :
    Nat → α :=
  idxs.foldl (fun acc idx => store acc idx (f idx)) c

/-- The launch coordinates of a 2D kernel: every pair of a block index
`(bx, by)` in the grid and a thread index `(tx, ty)` in the block. -/
def coords2d (gx gy bsx bsy : Nat) : List ((Nat × Nat) × Nat × Nat) :=
  ((List.range gx).product (List.range gy)).product
    ((List.range bsx).product (List.range bsy))

/-- Write targets of `kernel2d.cu`: thread `((bx, by), (tx, ty))` computes
`i = blockIdx.x * block_size_x + threadIdx.x`,
`j = blockIdx.y * block_size_y + threadIdx.y` and stores at `j*n+i` when
`i < n && j < m`. -/
def writes2d (n m bsx bsy gx gy : Nat) : List Nat :=
  ((coords2d gx gy bsx bsy).filter (fun t =>
      decide (t.1.1 * bsx + t.2.1 < n ∧ t.1.2 * bsy + t.2.2 < m))).map
    (fun t => (t.1.2 * bsy + t.2.2) * n + (t.1.1 * bsx + t.2.1))

/-- The launch coordinates of `kernel2dw.cu` together with the loop counter:
block index `(bx, by)`, thread index `(tx, ty)`, and the loop iteration
`ti < work_per_thread_x`. -/
def coords2dw (gx gy bsx bsy wpt : Nat) :
    List ((Nat × Nat) × (Nat × Nat) × Nat) :=
  ((List.range gx).product (List.range gy)).product
    (((List.range bsx).product (List.range bsy)).product (List.range wpt))

/-- Write targets of `kernel2dw.cu`: thread `((bx, by), (tx, ty))` computes
`i = blockIdx.x * block_size_x*work_per_thread_x + threadIdx.x`,
`j = blockIdx.y * block_size_y + threadIdx.y` and, at loop iteration `ti`,
stores at `j*n+(i+ti*block_size_x)` when `(i+ti*block_size_x) < n && j < m`. -/
def writes2dw (n m bsx bsy wpt gx gy : Nat) : List Nat :=
  ((coords2dw gx gy bsx bsy wpt).filter (fun t =>
      decide (t.1.1 * (bsx * wpt) + t.2.1.1 + t.2.2 * bsx < n ∧
              t.1.2 * bsy + t.2.1.2 < m))).map
    (fun t => (t.1.2 * bsy + t.2.1.2) * n +
              (t.1.1 * (bsx * wpt) + t.2.1.1 + t.2.2 * bsx))

/-- Execution of `kernel2d.cu` on an `n × m` problem with block size
`(bsx, bsy)` and the tuner's default grid `(⌈n/bsx⌉, ⌈m/bsy⌉)`:
the final contents of `c`. -/
def kernel2dRun {α : Type} [Add α] (n m bsx bsy : Nat) (a b c : Nat → α) :
    Nat → α :=
  runWrites (fun idx => a idx + b idx) c
    (writes2d n m bsx bsy (gridDim n bsx) (gridDim m bsy))

/-- Execution of `kernel2dw.cu` on an `n × m` problem with block size
`(bsx, bsy)`, work per thread `wpt` in x, and the grid
`(⌈n/(bsx*wpt)⌉, ⌈m/bsy⌉)` given by
`grid_div_x = ["block_size_x", "work_per_thread_x"]`. -/
def kernel2dwRun {α : Type} [Add α] (n m bsx bsy wpt : Nat) (a b c : Nat → α) :
    Nat → α :=
  runWrites (fun idx => a idx + b idx) c
    (writes2dw n m bsx bsy wpt (gridDim n (bsx * wpt)) (gridDim m bsy))

/-! ## Arithmetic helper lemmas -/

/-- Uniqueness of Euclidean decomposition: `a * k + r` with `r < k`
determines `a` and `r`. -/
theorem euclid_unique {k a a' r r' : Nat} (hr : r < k) (hr' : r' < k)
    (h : a * k + r = a' * k + r') : a = a' ∧ r = r' := by
  have ha : a = a' := by
    rcases Nat.lt_trichotomy a a' with hlt | heq | hgt
    · have h1 : (a + 1) * k ≤ a' * k := Nat.mul_le_mul_right k hlt
      rw [Nat.add_mul, one_mul] at h1
      omega
    · exact heq
    · have h1 : (a' + 1) * k ≤ a * k := Nat.mul_le_mul_right k hgt
      rw [Nat.add_mul, one_mul] at h1
      omega
  subst ha
  omega

/-- The ceiling-divided grid covers the whole problem size. -/
theorem le_mul_gridDim {p d : Nat} (hd : 1 ≤ d) : p ≤ d * gridDim p d := by
  unfold gridDim
  have h1 := Nat.div_add_mod (p + d - 1) d
  have h2 := Nat.mod_lt (p + d - 1) (show 0 < d by omega)
  omega

/-- The ceiling-divided grid is no larger than necessary. -/
theorem mul_gridDim_lt {p d : Nat} (hd : 1 ≤ d) : d * gridDim p d < p + d := by
  unfold gridDim
  have h1 := Nat.div_add_mod (p + d - 1) d
  omega

/-- An in-range element index falls in an in-range block index. -/
theorem div_lt_gridDim {i p d : Nat} (hd : 1 ≤ d) (hi : i < p) :
    i / d < gridDim p d := by
  rw [Nat.div_lt_iff_lt_mul (show 0 < d by omega), Nat.mul_comm]
  exact Nat.lt_of_lt_of_le hi (le_mul_gridDim hd)

/-- Flattened 2D indices of in-range elements stay below `n * m`. -/
theorem index_lt {n m i j : Nat} (hi : i < n) (hj : j < m) :
    j * n + i < n * m := by
  have h1 : (j + 1) * n ≤ m * n := Nat.mul_le_mul_right n hj
  rw [Nat.add_mul, one_mul, Nat.mul_comm m n] at h1
  omega

/-! ## Kernel semantics lemmas -/

/-- The result of a write-event list at an index: the stored value when some
event targets it, the initial contents otherwise. -/
theorem runWrites_apply {α : Type} (f : Nat → α) (c : Nat → α)
    (idxs : List Nat) (k : Nat) :
    runWrites f c idxs k = if k ∈ idxs then f k else c k := by
  induction idxs generalizing c with
  | nil => simp [runWrites]
  | cons i is ih =>
      show runWrites f (store c i (f i)) is k = _
      rw [ih]
      by_cases hk : k ∈ is
      · simp [hk]
      · by_cases hki : k = i
        · subst hki
          simp [hk, store]
        · simp [hk, hki, store]

/-- Every write of `kernel2d.cu` targets an in-range flattened index. -/
theorem writes2d_elim {n m bsx bsy gx gy idx : Nat}
    (h : idx ∈ writes2d n m bsx bsy gx gy) :
    ∃ i j, i < n ∧ j < m ∧ idx = j * n + i := by
  simp only [writes2d, List.mem_map, List.mem_filter] at h
  obtain ⟨⟨⟨bx, byi⟩, tx, ty⟩, ⟨_, hguard⟩, rfl⟩ := h
  simp only [decide_eq_true_eq] at hguard
  exact ⟨bx * bsx + tx, byi * bsy + ty, hguard.1, hguard.2, rfl⟩

/-- Write-target characterisation of `kernel2d.cu` under the tuner's default
grid `(⌈n/bsx⌉, ⌈m/bsy⌉)`: exactly the in-range flattened indices. -/
theorem mem_writes2d {n m bsx bsy idx : Nat} (hx : 1 ≤ bsx) (hy : 1 ≤ bsy) :
    idx ∈ writes2d n m bsx bsy (gridDim n bsx) (gridDim m bsy) ↔
      ∃ i j, i < n ∧ j < m ∧ idx = j * n + i := by
  constructor
  · exact writes2d_elim
  · rintro ⟨i, j, hi, hj, rfl⟩
    simp only [writes2d, List.mem_map, List.mem_filter]
    refine ⟨⟨⟨i / bsx, j / bsy⟩, i % bsx, j % bsy⟩, ⟨?_, ?_⟩, ?_⟩
    · simp only [coords2d, List.pair_mem_product, List.mem_range]
      exact ⟨⟨div_lt_gridDim hx hi, div_lt_gridDim hy hj⟩,
        Nat.mod_lt _ (show 0 < bsx by omega), Nat.mod_lt _ (show 0 < bsy by omega)⟩
    · have h1 := Nat.div_add_mod i bsx
      have h2 := Nat.div_add_mod j bsy
      rw [Nat.mul_comm bsx (i / bsx)] at h1
      rw [Nat.mul_comm bsy (j / bsy)] at h2
      simp only [decide_eq_true_eq]
      omega
    · have h1 := Nat.div_add_mod i bsx
      have h2 := Nat.div_add_mod j bsy
      rw [Nat.mul_comm bsx (i / bsx)] at h1
      rw [Nat.mul_comm bsy (j / bsy)] at h2
      show (j / bsy * bsy + j % bsy) * n + (i / bsx * bsx + i % bsx) = j * n + i
      rw [h1, h2]

/-- Every write of `kernel2dw.cu` targets an in-range flattened index. -/
theorem writes2dw_elim {n m bsx bsy wpt gx gy idx : Nat}
    (h : idx ∈ writes2dw n m bsx bsy wpt gx gy) :
    ∃ i j, i < n ∧ j < m ∧ idx = j * n + i := by
  simp only [writes2dw, List.mem_map, List.mem_filter] at h
  obtain ⟨⟨⟨bx, byi⟩, ⟨tx, ty⟩, ti⟩, ⟨_, hguard⟩, rfl⟩ := h
  simp only [decide_eq_true_eq] at hguard
  exact ⟨bx * (bsx * wpt) + tx + ti * bsx, byi * bsy + ty, hguard.1, hguard.2, rfl⟩

/-- Write-target characterisation of `kernel2dw.cu` under the grid given by
`grid_div_x = ["block_size_x", "work_per_thread_x"]`: exactly the in-range
flattened indices. -/
theorem mem_writes2dw {n m bsx bsy wpt idx : Nat}
    (hx : 1 ≤ bsx) (hy : 1 ≤ bsy) (hw : 1 ≤ wpt) :
    idx ∈ writes2dw n m bsx bsy wpt (gridDim n (bsx * wpt)) (gridDim m bsy) ↔
      ∃ i j, i < n ∧ j < m ∧ idx = j * n + i := by
  have hxw : 1 ≤ bsx * wpt := Nat.one_le_iff_ne_zero.mpr
    (Nat.mul_ne_zero (by omega) (by omega))
  constructor
  · exact writes2dw_elim
  · rintro ⟨i, j, hi, hj, rfl⟩
    simp only [writes2dw, List.mem_map, List.mem_filter]
    refine ⟨⟨⟨i / (bsx * wpt), j / bsy⟩,
      ⟨i % (bsx * wpt) % bsx, j % bsy⟩, i % (bsx * wpt) / bsx⟩, ⟨?_, ?_⟩, ?_⟩
    · simp only [coords2dw, List.pair_mem_product, List.mem_range]
      refine ⟨⟨div_lt_gridDim hxw hi, div_lt_gridDim hy hj⟩,
        ⟨Nat.mod_lt _ (show 0 < bsx by omega), Nat.mod_lt _ (show 0 < bsy by omega)⟩, ?_⟩
      rw [Nat.div_lt_iff_lt_mul (show 0 < bsx by omega), Nat.mul_comm wpt bsx]
      exact Nat.mod_lt _ (show 0 < bsx * wpt by omega)
    · have e1 := Nat.div_add_mod i (bsx * wpt)
      have e2 := Nat.div_add_mod (i % (bsx * wpt)) bsx
      have e3 := Nat.div_add_mod j bsy
      rw [Nat.mul_comm (bsx * wpt) (i / (bsx * wpt))] at e1
      rw [Nat.mul_comm bsx (i % (bsx * wpt) / bsx)] at e2
      rw [Nat.mul_comm bsy (j / bsy)] at e3
      simp only [decide_eq_true_eq]
      omega
    · have e1 := Nat.div_add_mod i (bsx * wpt)
      have e2 := Nat.div_add_mod (i % (bsx * wpt)) bsx
      have e3 := Nat.div_add_mod j bsy
      rw [Nat.mul_comm (bsx * wpt) (i / (bsx * wpt))] at e1
      rw [Nat.mul_comm bsx (i % (bsx * wpt) / bsx)] at e2
      rw [Nat.mul_comm bsy (j / bsy)] at e3
      show (j / bsy * bsy + j % bsy) * n +
          (i / (bsx * wpt) * (bsx * wpt) + i % (bsx * wpt) % bsx +
            i % (bsx * wpt) / bsx * bsx) = j * n + i
      have hieq : i / (bsx * wpt) * (bsx * wpt) + i % (bsx * wpt) % bsx +
          i % (bsx * wpt) / bsx * bsx = i := by omega
      rw [hieq, e3]

/-- The write events of `kernel2d.cu` target pairwise distinct indices. -/
theorem nodup_writes2d {n m bsx bsy gx gy : Nat} :
    (writes2d n m bsx bsy gx gy).Nodup := by
  unfold writes2d
  apply List.Nodup.map_on
  · rintro ⟨⟨bx, byi⟩, tx, ty⟩ h1 ⟨⟨bx', byi'⟩, tx', ty'⟩ h2 heq
    simp only [List.mem_filter, coords2d, List.pair_mem_product,
      List.mem_range, decide_eq_true_eq] at h1 h2
    obtain ⟨⟨⟨hbx, hbyi⟩, htx, hty⟩, hi, hj⟩ := h1
    obtain ⟨⟨⟨hbx', hbyi'⟩, htx', hty'⟩, hi', hj'⟩ := h2
    obtain ⟨hjj, hii⟩ := euclid_unique hi hi' heq
    obtain ⟨hb1, ht1⟩ := euclid_unique htx htx' hii
    obtain ⟨hb2, ht2⟩ := euclid_unique hty hty' hjj
    subst hb1; subst hb2; subst ht1; subst ht2
    rfl
  · exact List.Nodup.filter _
      (((List.nodup_range _).product (List.nodup_range _)).product
        ((List.nodup_range _).product (List.nodup_range _)))

/-- The write events of `kernel2dw.cu` target pairwise distinct indices:
each in-range element is written by exactly one loop iteration of exactly
one thread. -/
theorem nodup_writes2dw {n m bsx bsy wpt gx gy : Nat} :
    (writes2dw n m bsx bsy wpt gx gy).Nodup := by
  unfold writes2dw
  apply List.Nodup.map_on
  · rintro ⟨⟨bx, byi⟩, ⟨tx, ty⟩, ti⟩ h1 ⟨⟨bx', byi'⟩, ⟨tx', ty'⟩, ti'⟩ h2 heq
    simp only [List.mem_filter, coords2dw, List.pair_mem_product,
      List.mem_range, decide_eq_true_eq] at h1 h2
    obtain ⟨⟨⟨hbx, hbyi⟩, ⟨htx, hty⟩, hti⟩, hi, hj⟩ := h1
    obtain ⟨⟨⟨hbx', hbyi'⟩, ⟨htx', hty'⟩, hti'⟩, hi', hj'⟩ := h2
    obtain ⟨hjj, hii⟩ := euclid_unique hi hi' heq
    have hrem : tx + ti * bsx < bsx * wpt := by
      have h4 : (ti + 1) * bsx ≤ wpt * bsx := Nat.mul_le_mul_right bsx hti
      rw [Nat.add_mul, one_mul, Nat.mul_comm wpt bsx] at h4
      omega
    have hrem' : tx' + ti' * bsx < bsx * wpt := by
      have h4 : (ti' + 1) * bsx ≤ wpt * bsx := Nat.mul_le_mul_right bsx hti'
      rw [Nat.add_mul, one_mul, Nat.mul_comm wpt bsx] at h4
      omega
    have hii' : bx * (bsx * wpt) + (tx + ti * bsx) =
        bx' * (bsx * wpt) + (tx' + ti' * bsx) := by omega
    obtain ⟨hb1, hsum⟩ := euclid_unique hrem hrem' hii'
    have hsum' : ti * bsx + tx = ti' * bsx + tx' := by omega
    obtain ⟨hteq, htxeq⟩ := euclid_unique htx htx' hsum'
    obtain ⟨hb2, ht2⟩ := euclid_unique hty hty' hjj
    subst hb1; subst hb2; subst hteq; subst htxeq; subst ht2
    rfl
  · exact List.Nodup.filter _
      (((List.nodup_range _).product (List.nodup_range _)).product
        ((((List.nodup_range _).product (List.nodup_range _))).product
          (List.nodup_range _)))

/-! ## Claim C10 -/

/-- **C10**: For every `n ≥ 1`, `m ≥ 1`, `block_size_x ≥ 1`,
`block_size_y ≥ 1`, `work_per_thread_x ≥ 1`, with grid x-dimension
`⌈n/(block_size_x*work_per_thread_x)⌉` and grid y-dimension
`⌈m/block_size_y⌉`, the work-per-thread kernel in `kernel2dw.cu` computes
exactly the same function as the plain 2D kernel in `kernel2d.cu`: each
element `c[j*n+i]` with `i < n` and `j < m` is written exactly once with
the value `a[j*n+i] + b[j*n+i]`, and no index outside `[0, n*m)` is
written. -/
theorem kernel2dw_equiv_kernel2d {α : Type} [Add α]
    (n m bsx bsy wpt : Nat) (a b c : Nat → α)
    (hn : 1 ≤ n) (hm : 1 ≤ m) (hx : 1 ≤ bsx) (hy : 1 ≤ bsy) (hw : 1 ≤ wpt) :
    kernel2dwRun n m bsx bsy wpt a b c = kernel2dRun n m bsx bsy a b c
    ∧ (∀ i j, i < n → j < m →
        kernel2dwRun n m bsx bsy wpt a b c (j * n + i) =
            a (j * n + i) + b (j * n + i)
        ∧ (writes2dw n m bsx bsy wpt (gridDim n (bsx * wpt))
            (gridDim m bsy)).count (j * n + i) = 1
        ∧ (writes2d n m bsx bsy (gridDim n bsx)
            (gridDim m bsy)).count (j * n + i) = 1)
    ∧ (∀ idx, n * m ≤ idx →
        kernel2dwRun n m bsx bsy wpt a b c idx = c idx
        ∧ kernel2dRun n m bsx bsy a b c idx = c idx) := by
  refine ⟨?_, ?_, ?_⟩
  · funext k
    unfold kernel2dwRun kernel2dRun
    rw [runWrites_apply, runWrites_apply]
    by_cases hk : ∃ i j, i < n ∧ j < m ∧ k = j * n + i
    · rw [if_pos ((mem_writes2dw hx hy hw).mpr hk),
        if_pos ((mem_writes2d hx hy).mpr hk)]
    · rw [if_neg (fun hmem => hk (writes2dw_elim hmem)),
        if_neg (fun hmem => hk (writes2d_elim hmem))]
  · intro i j hi hj
    have hmem : ∃ i' j', i' < n ∧ j' < m ∧ j * n + i = j' * n + i' :=
      ⟨i, j, hi, hj, rfl⟩
    refine ⟨?_, ?_, ?_⟩
    · unfold kernel2dwRun
      rw [runWrites_apply, if_pos ((mem_writes2dw hx hy hw).mpr hmem)]
    · exact List.count_eq_one_of_mem nodup_writes2dw
        ((mem_writes2dw hx hy hw).mpr hmem)
    · exact List.count_eq_one_of_mem nodup_writes2d
        ((mem_writes2d hx hy).mpr hmem)
  · intro idx hidx
    have hnot2dw : idx ∉ writes2dw n m bsx bsy wpt (gridDim n (bsx * wpt))
        (gridDim m bsy) := by
      intro hmem
      obtain ⟨i, j, hi, hj, rfl⟩ := writes2dw_elim hmem
      exact absurd (index_lt hi hj) (not_lt.mpr hidx)
    have hnot2d : idx ∉ writes2d n m bsx bsy (gridDim n bsx)
        (gridDim m bsy) := by
      intro hmem
      obtain ⟨i, j, hi, hj, rfl⟩ := writes2d_elim hmem
      exact absurd (index_lt hi hj) (not_lt.mpr hidx)
    constructor
    · unfold kernel2dwRun
      rw [runWrites_apply, if_neg hnot2dw]
    · unfold kernel2dRun
      rw [runWrites_apply, if_neg hnot2d]

/-- Witness for C10 at `n = 5`, `m = 3`, `block_size_x = 2`,
`block_size_y = 2`, `work_per_thread_x = 2` over integer arrays. -/
theorem kernel2dw_equiv_kernel2d_witness :
    kernel2dwRun 5 3 2 2 2 (fun i => (i : Int)) (fun i => (2 * i : Int))
        (fun _ => 0)
      = kernel2dRun 5 3 2 2 (fun i => (i : Int)) (fun i => (2 * i : Int))
        (fun _ => 0) :=
  (kernel2dw_equiv_kernel2d 5 3 2 2 2 _ _ _ (by decide) (by decide)
    (by decide) (by decide) (by decide)).1

/-! ## Claim C1 -/

/-- A cache hit survives adding an entry in front. -/
theorem lookup_isSome_cons {e : CacheEntry} {cache : List CacheEntry}
    {pid : ProblemId} {cfg : Config}
    (h : (lookupCache cache pid cfg).isSome) :
    (lookupCache (e :: cache) pid cfg).isSome := by
  unfold lookupCache
  split
  · simp
  · exact h

/-- A cache hit survives a whole tuning run: the run only prepends entries. -/
theorem lookup_isSome_run (exec : Config → BenchResult) (pid' : ProblemId)
    (cfgs : List Config) :
    ∀ (cache : List CacheEntry) (pid : ProblemId) (cfg : Config),
      (lookupCache cache pid cfg).isSome →
      (lookupCache (tuneWithCache exec pid' cfgs cache).1 pid cfg).isSome := by
  induction cfgs with
  | nil =>
      intro cache pid cfg h
      exact h
  | cons c cs ih =>
      intro cache pid cfg h
      unfold tuneWithCache
      cases hl : lookupCache cache pid' c with
      | some r => exact ih cache pid cfg h
      | none => exact ih _ pid cfg (lookup_isSome_cons h)

/-- After a tuning run, every processed configuration is a cache hit. -/
theorem run_populates (exec : Config → BenchResult) (pid : ProblemId) :
    ∀ (cfgs : List Config) (cache : List CacheEntry) (cfg : Config),
      cfg ∈ cfgs →
      (lookupCache (tuneWithCache exec pid cfgs cache).1 pid cfg).isSome := by
  intro cfgs
  induction cfgs with
  | nil =>
      intro cache cfg h
      cases h
  | cons c cs ih =>
      intro cache cfg hmem
      unfold tuneWithCache
      cases hl : lookupCache cache pid c with
      | some r =>
          rcases List.mem_cons.mp hmem with heq | hmem'
          · subst heq
            exact lookup_isSome_run exec pid cs cache pid cfg
              (by rw [hl]; rfl)
          · exact ih cache cfg hmem'
      | none =>
          rcases List.mem_cons.mp hmem with heq | hmem'
          · subst heq
            apply lookup_isSome_run exec pid cs
            unfold lookupCache
            rw [if_pos ⟨rfl, rfl⟩]
            rfl
          · exact ih _ cfg hmem'

/-- A run over configurations that are all already cached invokes the
Benchmark Executor zero times. -/
theorem run_all_hits_zero (exec : Config → BenchResult) (pid : ProblemId) :
    ∀ (cfgs : List Config) (cache : List CacheEntry),
      (∀ cfg ∈ cfgs, (lookupCache cache pid cfg).isSome) →
      (tuneWithCache exec pid cfgs cache).2 = 0 := by
  intro cfgs
  induction cfgs with
  | nil =>
      intro cache _
      rfl
  | cons c cs ih =>
      intro cache hall
      unfold tuneWithCache
      cases hl : lookupCache cache pid c with
      | some r => exact ih cache (fun cfg h => hall cfg (List.mem_cons_of_mem _ h))
      | none =>
          have := hall c (List.mem_cons_self _ _)
          rw [hl] at this
          cases this

/-- **C1**: Running a tuning session from an empty cache, persisting the
cache, then re-running with the same Parameter Space (configuration list)
and problem identity produces zero additional Benchmark Executor
invocations — every configuration is a cache hit that short-circuits
execution — and a cached result is reused only when both the Configuration
and the problem identity (problem size included) match exactly. -/
theorem cache_round_trip (exec : Config → BenchResult) (pid : ProblemId)
    (cfgs : List Config) :
    (tuneWithCache exec pid cfgs (tuneWithCache exec pid cfgs []).1).2 = 0
    ∧ (∀ (cache : List CacheEntry) (pid' : ProblemId) (cfg : Config)
        (r : BenchResult),
        lookupCache cache pid' cfg = some r → (pid', cfg, r) ∈ cache) := by
  constructor
  · apply run_all_hits_zero
    intro cfg hcfg
    exact run_populates exec pid cfgs [] cfg hcfg
  · intro cache
    induction cache with
    | nil =>
        intro pid' cfg r h
        cases h
    | cons e rest ih =>
        intro pid' cfg r h
        unfold lookupCache at h
        split at h
        · next hcond =>
            rw [Option.some.injEq] at h
            have he : e = (pid', cfg, r) := by
              calc e = (e.1, e.2.1, e.2.2) := rfl
                _ = (pid', cfg, r) := by rw [hcond.1, hcond.2, h]
            rw [he]
            exact List.mem_cons_self _ _
        · exact List.mem_cons_of_mem _ (ih pid' cfg r h)

/-- Witness for C1: a two-configuration tuning run on the notebook's
`vector_add` problem, re-run against its own persisted cache, performs no
executor invocations; and a concrete cache lookup hit names an entry of the
cache with exactly that configuration and problem identity. -/
theorem cache_round_trip_witness :
    (tuneWithCache (fun _ => ⟨1, [1], []⟩) ⟨"vector_add", [1000000]⟩
        [[("block_size_x", 32)], [("block_size_x", 64)]]
        (tuneWithCache (fun _ => ⟨1, [1], []⟩) ⟨"vector_add", [1000000]⟩
          [[("block_size_x", 32)], [("block_size_x", 64)]] []).1).2 = 0
    ∧ ((⟨"vector_add", [1000000]⟩ : ProblemId), [("block_size_x", 32)],
        ({ time := 1, samples := [1], metricValues := [] } : BenchResult)) ∈
        [((⟨"vector_add", [1000000]⟩ : ProblemId), [("block_size_x", 32)],
          ({ time := 1, samples := [1], metricValues := [] } : BenchResult))] :=
  ⟨(cache_round_trip (fun _ => ⟨1, [1], []⟩) ⟨"vector_add", [1000000]⟩
      [[("block_size_x", 32)], [("block_size_x", 64)]]).1,
   (cache_round_trip (fun _ => ⟨1, [1], []⟩) ⟨"vector_add", [1000000]⟩
      [[("block_size_x", 32)], [("block_size_x", 64)]]).2
      [((⟨"vector_add", [1000000]⟩ : ProblemId), [("block_size_x", 32)],
        ({ time := 1, samples := [1], metricValues := [] } : BenchResult))]
      ⟨"vector_add", [1000000]⟩ [("block_size_x", 32)]
      ({ time := 1, samples := [1], metricValues := [] } : BenchResult) rfl⟩

/-! ## Claim C4 -/

/-- **C4**: For every problem size `P ≥ 1` in a dimension and every
grid-divisor list whose parameter values have product `D ≥ 1`, the computed
number of blocks in that dimension equals `⌈P/D⌉`, which is a positive
integer; in particular `P = 1000000` with `D = 256` gives `blocks = 3907`. -/
theorem gridBlocks_eq_ceil (p : Nat) (cfg : Config) (names : List String)
    (hp : 1 ≤ p) (hd : 1 ≤ divisorProduct cfg names) :
    ((gridBlocks cfg names p : Int) =
        ⌈(p : ℚ) / (divisorProduct cfg names : ℚ)⌉)
    ∧ 1 ≤ gridBlocks cfg names p
    ∧ gridDim 1000000 256 = 3907 := by
  have main : ∀ d : Nat, 1 ≤ d →
      ((gridDim p d : Int) = ⌈(p : ℚ) / (d : ℚ)⌉) ∧ 1 ≤ gridDim p d := by
    intro d hd'
    have hd0 : (0 : ℚ) < (d : ℚ) := by exact_mod_cast hd'
    have h1 : p ≤ d * gridDim p d := le_mul_gridDim hd'
    have h2 : d * gridDim p d < p + d := mul_gridDim_lt hd'
    constructor
    · rw [eq_comm, Int.ceil_eq_iff]
      constructor
      · rw [lt_div_iff₀ hd0]
        push_cast
        have h2' : (d : ℚ) * (gridDim p d : ℚ) < (p : ℚ) + (d : ℚ) := by
          exact_mod_cast h2
        nlinarith
      · rw [div_le_iff₀ hd0]
        push_cast
        have h1' : (p : ℚ) ≤ (d : ℚ) * (gridDim p d : ℚ) := by
          exact_mod_cast h1
        nlinarith
    · unfold gridDim
      rw [Nat.le_div_iff_mul_le (show 0 < d by omega), one_mul]
      omega
  obtain ⟨hceil, hpos⟩ := main (divisorProduct cfg names) hd
  exact ⟨hceil, hpos, by norm_num [gridDim]⟩

/-- Witness for C4: `grid_div_x = ["block_size_x", "work_per_thread_x"]`
with `block_size_x = 128`, `work_per_thread_x = 2` gives divisor product
`D = 256`, and `P = 1000000` gives 3907 blocks. -/
theorem gridBlocks_eq_ceil_witness :
    ((gridBlocks [("block_size_x", 128), ("work_per_thread_x", 2)]
        ["block_size_x", "work_per_thread_x"] 1000000 : Int) =
      ⌈(1000000 : ℚ) /
        ((divisorProduct [("block_size_x", 128), ("work_per_thread_x", 2)]
          ["block_size_x", "work_per_thread_x"]) : ℚ)⌉)
    ∧ 1 ≤ gridBlocks [("block_size_x", 128), ("work_per_thread_x", 2)]
        ["block_size_x", "work_per_thread_x"] 1000000
    ∧ gridDim 1000000 256 = 3907 :=
  gridBlocks_eq_ceil 1000000 [("block_size_x", 128), ("work_per_thread_x", 2)]
    ["block_size_x", "work_per_thread_x"] (by decide) (by decide)

/-! ## Claim C2 -/

/-- **C2**: For every Parameter Space and every list of Restriction
predicates, every Configuration emitted by the Configuration Space Builder
satisfies all restriction predicates; a combination violating any
restriction is never yielded. -/
theorem configSpace_sound (ps : ParamSpace) (rs : List Restriction)
    (cfgs : List Config) (hok : buildConfigSpace ps rs = .ok cfgs) :
    ∀ cfg ∈ cfgs, ∀ r ∈ rs, r.holds cfg := by
  unfold buildConfigSpace at hok
  by_cases hv : varsDefined ps rs = true
  · rw [if_pos hv] at hok
    simp only [Except.ok.injEq] at hok
    subst hok
    intro cfg hcfg r hr
    rw [List.mem_filter] at hcfg
    have hall := hcfg.2
    rw [List.all_eq_true] at hall
    exact of_decide_eq_true (hall r hr)
  · rw [if_neg hv] at hok
    exact absurd hok (by simp)

/-- Witness for C2: the notebook's restriction
`"work_per_thread_x >= loop_unroll_factor_0"` holds of a configuration
emitted by the builder. -/
theorem configSpace_sound_witness :
    Restriction.holds
      (.ge (.var "work_per_thread_x") (.var "loop_unroll_factor_0"))
      [("work_per_thread_x", 2), ("loop_unroll_factor_0", 1)] :=
  configSpace_sound
    [("work_per_thread_x", [1, 2]), ("loop_unroll_factor_0", [0, 1, 2, 4])]
    [.ge (.var "work_per_thread_x") (.var "loop_unroll_factor_0")]
    [[("work_per_thread_x", 1), ("loop_unroll_factor_0", 0)],
     [("work_per_thread_x", 1), ("loop_unroll_factor_0", 1)],
     [("work_per_thread_x", 2), ("loop_unroll_factor_0", 0)],
     [("work_per_thread_x", 2), ("loop_unroll_factor_0", 1)],
     [("work_per_thread_x", 2), ("loop_unroll_factor_0", 2)]]
    rfl
    [("work_per_thread_x", 2), ("loop_unroll_factor_0", 1)] (by decide)
    (.ge (.var "work_per_thread_x") (.var "loop_unroll_factor_0")) (by decide)

/-! ## Claim C3 -/

/-- The Cartesian product has as many configurations as the product of the
value-list lengths. -/
theorem cartesian_length (ps : ParamSpace) :
    (cartesian ps).length = (ps.map (fun p => p.2.length)).prod := by
  induction ps with
  | nil => simp [cartesian]
  | cons p rest ih =>
      obtain ⟨name, vals⟩ := p
      simp only [cartesian, List.length_flatMap, Function.comp_def,
        List.length_map, List.map_cons, List.prod_cons, ih]
      rw [List.map_const', List.sum_replicate, smul_eq_mul]

/-- Membership in the Cartesian product: the configuration picks, for each
parameter in insertion order, exactly one candidate value. -/
theorem cartesian_mem (ps : ParamSpace) (cfg : Config) :
    cfg ∈ cartesian ps ↔
      List.Forall₂ (fun (e : String × Nat) (p : String × List Nat) =>
        e.1 = p.1 ∧ e.2 ∈ p.2) cfg ps := by
  induction ps generalizing cfg with
  | nil =>
      simp only [cartesian, List.mem_singleton, List.forall₂_nil_right_iff]
  | cons p rest ih =>
      obtain ⟨name, vals⟩ := p
      simp only [cartesian, List.mem_flatMap, List.mem_map]
      constructor
      · rintro ⟨v, hv, cfg', hcfg', rfl⟩
        exact List.Forall₂.cons ⟨rfl, hv⟩ ((ih cfg').mp hcfg')
      · intro h
        cases h with
        | cons he hrest =>
            rename_i e cfg'
            refine ⟨e.2, he.2, cfg', (ih cfg').mpr hrest, ?_⟩
            have hne : e = (name, e.2) := Prod.ext he.1 rfl
            rw [← hne]

/-- A configuration absent from a list occurs zero times in it. -/
theorem countCfg_eq_zero {cfg : Config} {l : List Config} (h : cfg ∉ l) :
    countCfg cfg l = 0 := by
  unfold countCfg
  rw [List.length_eq_zero, List.filter_eq_nil_iff]
  intro a ha
  simp only [decide_eq_true_eq]
  intro heq
  exact h (heq ▸ ha)

/-- A configuration of a duplicate-free list occurs exactly once in it. -/
theorem countCfg_eq_one {cfg : Config} {l : List Config} (hnd : l.Nodup)
    (hm : cfg ∈ l) : countCfg cfg l = 1 := by
  induction l with
  | nil => cases hm
  | cons c cs ih =>
      rw [List.nodup_cons] at hnd
      unfold countCfg
      rw [List.filter_cons]
      rcases List.mem_cons.mp hm with heq | hmem
      · subst heq
        rw [if_pos (by simp)]
        have h0 : countCfg cfg cs = 0 := countCfg_eq_zero hnd.1
        unfold countCfg at h0
        simp only [List.length_cons]
        omega
      · have hne : ¬(decide (c = cfg) = true) := by
          simp only [decide_eq_true_eq]
          intro heq2
          exact hnd.1 (heq2 ▸ hmem)
        rw [if_neg hne]
        exact ih hnd.2 hmem

/-- The Cartesian product repeats no configuration when each parameter's
candidate-value list repeats no value. -/
theorem cartesian_nodup (ps : ParamSpace)
    (h : ∀ p ∈ ps, p.2.Nodup) : (cartesian ps).Nodup := by
  induction ps with
  | nil => simp [cartesian]
  | cons p rest ih =>
      obtain ⟨name, vals⟩ := p
      have hvals : vals.Nodup := h (name, vals) (List.mem_cons_self _ _)
      have hrest := ih (fun q hq => h q (List.mem_cons_of_mem _ hq))
      have hrw : cartesian ((name, vals) :: rest) =
          (vals.product (cartesian rest)).map
            (fun q => (name, q.1) :: q.2) := by
        simp [cartesian, List.product, List.map_flatMap, List.map_map,
          Function.comp_def]
      rw [hrw]
      apply List.Nodup.map_on
      · rintro ⟨v, cfg⟩ _ ⟨v', cfg'⟩ _ heq
        simp only [List.cons.injEq, Prod.mk.injEq] at heq
        exact Prod.ext heq.1.2 heq.2
      · exact hvals.product hrest

/-- **C3**: For every Parameter Space with an empty restriction list, the
Configuration Space Builder enumerates exactly the full Cartesian product
of the parameter value lists — the enumeration in parameter-insertion
order — yielding each combination exactly once (given duplicate-free
candidate-value lists). -/
theorem configSpace_no_restrictions (ps : ParamSpace)
    (hnd : ∀ p ∈ ps, p.2.Nodup) :
    buildConfigSpace ps [] = .ok (cartesian ps)
    ∧ (cartesian ps).length = (ps.map (fun p => p.2.length)).prod
    ∧ (∀ cfg, cfg ∈ cartesian ps ↔
        List.Forall₂ (fun (e : String × Nat) (p : String × List Nat) =>
          e.1 = p.1 ∧ e.2 ∈ p.2) cfg ps)
    ∧ (∀ cfg ∈ cartesian ps, countCfg cfg (cartesian ps) = 1) := by
  refine ⟨?_, cartesian_length ps, cartesian_mem ps, ?_⟩
  · unfold buildConfigSpace varsDefined
    simp
  · intro cfg hcfg
    exact countCfg_eq_one (cartesian_nodup ps hnd) hcfg

/-- Witness for C3 on the notebook's 2D parameter space
(`block_size_x ∈ [32, 64, 128, 256, 512]`, `block_size_y ∈ [1, 2, 4, 8]`):
the builder yields the full Cartesian product of 20 combinations. -/
theorem configSpace_no_restrictions_witness :
    buildConfigSpace
        [("block_size_x", [32, 64, 128, 256, 512]),
         ("block_size_y", [1, 2, 4, 8])] []
      = .ok (cartesian
        [("block_size_x", [32, 64, 128, 256, 512]),
         ("block_size_y", [1, 2, 4, 8])]) :=
  (configSpace_no_restrictions
    [("block_size_x", [32, 64, 128, 256, 512]),
     ("block_size_y", [1, 2, 4, 8])] (by decide)).1

/-! ## Claim C5 -/

/-- **C5**: Only `ConfigurationError` aborts the whole tuning run, and it is
raised if and only if a restriction references an undefined parameter name,
before any benchmarking occurs (an aborted run is independent of the
executor); `FeasibilityReject`, `CompileError` and `LaunchError` are each
caught per-configuration, recorded as skipped with a reason, and the run
continues over the remaining configurations (one recorded outcome per
configuration of the space). -/
theorem error_taxonomy (ps : ParamSpace) (rs : List Restriction)
    (dev : DeviceDescriptor) (exec : Config → Except RunError BenchResult)
    (demand : Config → ResourceDemand) :
    ((∃ e, tuneKernel ps rs dev exec demand = .error e) ↔
      varsDefined ps rs = false)
    ∧ (∀ e, tuneKernel ps rs dev exec demand = .error e →
        ∀ exec', tuneKernel ps rs dev exec' demand = .error e)
    ∧ (∀ cfgs, buildConfigSpace ps rs = .ok cfgs →
        tuneKernel ps rs dev exec demand =
          .ok (cfgs.map (fun cfg => (cfg, processConfig dev exec demand cfg))))
    ∧ (∀ cfg reason, feasibilityCheck dev cfg (demand cfg) = some reason →
        processConfig dev exec demand cfg = .skippedFeasibility reason)
    ∧ (∀ cfg, feasibilityCheck dev cfg (demand cfg) = none →
        (∀ msg, exec cfg = .error (.compileError msg) →
          processConfig dev exec demand cfg = .skippedCompile msg)
        ∧ (exec cfg = .error .launchError →
          processConfig dev exec demand cfg = .skippedLaunch)) := by
  refine ⟨?_, ?_, ?_, ?_, ?_⟩
  · unfold tuneKernel buildConfigSpace
    by_cases hv : varsDefined ps rs = true
    · rw [if_pos hv]
      simp [hv]
    · rw [if_neg hv]
      simp only [Bool.not_eq_true] at hv
      simp only [hv, iff_true]
      exact ⟨.undefinedParameter, trivial⟩
  · intro e he exec'
    cases e
    unfold tuneKernel buildConfigSpace at he ⊢
    by_cases hv : varsDefined ps rs = true
    · rw [if_pos hv] at he
      simp at he
    · rw [if_neg hv]
  · intro cfgs hok
    unfold tuneKernel
    rw [hok]
  · intro cfg reason h
    unfold processConfig
    rw [h]
  · intro cfg h
    constructor
    · intro msg hmsg
      unfold processConfig
      rw [h, hmsg]
    · intro hl
      unfold processConfig
      rw [h, hl]

/-- Witness for C5: the restriction `"w >= nope"` references the undefined
parameter `nope` and aborts the run with `ConfigurationError` for any
executor; a configuration of 2048 threads per block on a 1024-thread device
is recorded as a feasibility skip. -/
theorem error_taxonomy_witness :
    tuneKernel [("w", [1, 2])] [.ge (.var "w") (.var "nope")]
        ⟨1024, 49152, 65536⟩ (fun _ => .ok ⟨1, [1], []⟩) (fun _ => ⟨0, 0⟩)
      = .error .undefinedParameter
    ∧ processConfig ⟨1024, 49152, 65536⟩ (fun _ => .ok ⟨1, [1], []⟩)
        (fun _ => ⟨0, 0⟩) [("block_size_x", 2048)]
      = .skippedFeasibility .tooManyThreads :=
  ⟨(error_taxonomy [("w", [1, 2])] [.ge (.var "w") (.var "nope")]
      ⟨1024, 49152, 65536⟩ (fun _ => .error .launchError)
      (fun _ => ⟨0, 0⟩)).2.1 .undefinedParameter rfl
      (fun _ => .ok ⟨1, [1], []⟩),
   (error_taxonomy [("w", [1, 2])] [.ge (.var "w") (.var "nope")]
      ⟨1024, 49152, 65536⟩ (fun _ => .ok ⟨1, [1], []⟩)
      (fun _ => ⟨0, 0⟩)).2.2.2.1 [("block_size_x", 2048)]
      .tooManyThreads rfl⟩

/-! ## Claim C6 -/

/-- **C6**: For every Configuration whose computed threads-per-block
exceeds the device maximum, the Launch Feasibility Filter rejects it with
the skip reason too-many-threads (one of the categories too-many-threads,
too-much-shared-memory, too-many-registers) before any compilation is
attempted: the per-configuration outcome never invokes the Benchmark
Executor (it is independent of the executor), is a recorded skip, and no
error is raised. -/
theorem feasibility_rejects (dev : DeviceDescriptor)
    (demand : Config → ResourceDemand) (cfg : Config)
    (h : dev.maxThreads < threadsPerBlock cfg) :
    feasibilityCheck dev cfg (demand cfg) = some .tooManyThreads
    ∧ (∀ exec exec', processConfig dev exec demand cfg =
        processConfig dev exec' demand cfg)
    ∧ (∀ exec, processConfig dev exec demand cfg =
        .skippedFeasibility .tooManyThreads) := by
  have hfc : feasibilityCheck dev cfg (demand cfg) = some .tooManyThreads := by
    unfold feasibilityCheck
    rw [if_pos h]
  refine ⟨hfc, ?_, ?_⟩
  · intro exec exec'
    unfold processConfig
    rw [hfc]
  · intro exec
    unfold processConfig
    rw [hfc]

set_option maxRecDepth 4096 in
/-- Witness for C6: `block_size_x = 512`, `block_size_y = 4` gives 2048
threads per block, above the 1024-thread device maximum, so the
configuration is skipped without invoking the executor. -/
theorem feasibility_rejects_witness :
    processConfig ⟨1024, 49152, 65536⟩ (fun _ => .ok ⟨1, [1], []⟩)
        (fun _ => ⟨0, 0⟩) [("block_size_x", 512), ("block_size_y", 4)]
      = .skippedFeasibility .tooManyThreads :=
  (feasibility_rejects ⟨1024, 49152, 65536⟩ (fun _ => ⟨0, 0⟩)
    [("block_size_x", 512), ("block_size_y", 4)] (by decide)).2.2
    (fun _ => .ok ⟨1, [1], []⟩)

/-! ## Claim C7 -/

/-- **C7**: For every Configuration Space, the exhaustive Search Strategy
evaluates every valid Configuration exactly once, in enumeration order, and
the set of configurations it evaluates is the same regardless of invocation
order (set equality across permuted enumerations). -/
theorem exhaustive_exactly_once (space : List Config) (hnd : space.Nodup) :
    exhaustiveStrategy space = space
    ∧ (∀ cfg ∈ space, countCfg cfg (exhaustiveStrategy space) = 1)
    ∧ (∀ space', space.Perm space' →
        ∀ cfg, cfg ∈ exhaustiveStrategy space' ↔
          cfg ∈ exhaustiveStrategy space) := by
  refine ⟨rfl, ?_, ?_⟩
  · intro cfg h
    exact countCfg_eq_one hnd h
  · intro space' hp cfg
    exact hp.symm.mem_iff

/-- Witness for C7 on a two-configuration space. -/
theorem exhaustive_exactly_once_witness :
    exhaustiveStrategy [[("block_size_x", 32)], [("block_size_x", 64)]] =
      [[("block_size_x", 32)], [("block_size_x", 64)]] :=
  (exhaustive_exactly_once [[("block_size_x", 32)], [("block_size_x", 64)]]
    (by decide)).1

/-! ## Claim C8 -/

/-- Unfolding: one metric is evaluated on the record built so far and its
result is inserted into the record before the rest run. -/
theorem evalMetrics_cons (p : Metric) (rest : List Metric)
    (rec : MetricRecord) :
    evalMetrics (p :: rest) rec =
      evalMetrics rest (rec ++ [(p.1, p.2 rec)]) := rfl

/-- Metrics evaluate left to right, in declaration order. -/
theorem evalMetrics_append (l1 l2 : List Metric) :
    ∀ rec, evalMetrics (l1 ++ l2) rec = evalMetrics l2 (evalMetrics l1 rec) := by
  induction l1 with
  | nil =>
      intro rec
      rfl
  | cons p rest ih =>
      intro rec
      rw [List.cons_append, evalMetrics_cons, evalMetrics_cons]
      exact ih _

/-- Metric evaluation only appends entries, one per metric, in order. -/
theorem evalMetrics_grows (ms : List Metric) :
    ∀ rec, ∃ t, evalMetrics ms rec = rec ++ t
      ∧ t.map Prod.fst = ms.map Prod.fst := by
  induction ms with
  | nil =>
      intro rec
      exact ⟨[], by simp [evalMetrics]⟩
  | cons p rest ih =>
      intro rec
      obtain ⟨t, ht, hk⟩ := ih (rec ++ [(p.1, p.2 rec)])
      refine ⟨(p.1, p.2 rec) :: t, ?_, ?_⟩
      · rw [evalMetrics_cons, ht, List.append_assoc]
        rfl
      · simp [hk]

/-- A record lookup passes through an appended suffix on a hit. -/
theorem lookupVal_append_left {l1 : MetricRecord} {s : String} {v : ℚ}
    (h : lookupVal l1 s = some v) (l2 : MetricRecord) :
    lookupVal (l1 ++ l2) s = some v := by
  induction l1 with
  | nil => cases h
  | cons e rest ih =>
      rw [show lookupVal (e :: rest) s =
        (if e.1 = s then some e.2 else lookupVal rest s) from rfl] at h
      rw [List.cons_append]
      show (if e.1 = s then some e.2 else lookupVal (rest ++ l2) s) = some v
      by_cases hc : e.1 = s
      · rw [if_pos hc] at h ⊢
        exact h
      · rw [if_neg hc] at h ⊢
        exact ih h

/-- A record lookup skips a prefix holding no binding for the name. -/
theorem lookupVal_append_right {l1 : MetricRecord} {s : String}
    (h : s ∉ l1.map Prod.fst) (l2 : MetricRecord) :
    lookupVal (l1 ++ l2) s = lookupVal l2 s := by
  induction l1 with
  | nil => rfl
  | cons e rest ih =>
      simp only [List.map_cons, List.mem_cons, not_or] at h
      rw [List.cons_append]
      show (if e.1 = s then some e.2 else lookupVal (rest ++ l2) s) = _
      rw [if_neg (fun hc => h.1 hc.symm)]
      exact ih h.2

/-- A name a record looks up as `none` is bound nowhere in it. -/
theorem not_mem_of_lookupVal_none {l : MetricRecord} {s : String}
    (h : lookupVal l s = none) : s ∉ l.map Prod.fst := by
  induction l with
  | nil => simp
  | cons e rest ih =>
      rw [show lookupVal (e :: rest) s =
        (if e.1 = s then some e.2 else lookupVal rest s) from rfl] at h
      by_cases hc : e.1 = s
      · rw [if_pos hc] at h
        cases h
      · rw [if_neg hc] at h
        simp only [List.map_cons, List.mem_cons, not_or]
        exact ⟨fun hh => hc hh.symm, ih h⟩

/-- The name of the metric at a position is absent from the earlier
positions of a duplicate-free metrics list. -/
theorem metric_name_not_in_take {ms : List Metric}
    (hnd : (ms.map Prod.fst).Nodup) {j : Nat} (hj : j < ms.length) :
    (ms.get ⟨j, hj⟩).1 ∉ (ms.take j).map Prod.fst := by
  intro hmem
  rw [List.map_take] at hmem
  obtain ⟨k, hk, hke⟩ := List.mem_iff_getElem.mp hmem
  have hkj : k < j := by
    have := hk
    rw [List.length_take] at this
    omega
  have hkl : k < (ms.map Prod.fst).length := by
    rw [List.length_map]
    omega
  have hjl : j < (ms.map Prod.fst).length := by
    rw [List.length_map]
    omega
  have hget : ((ms.map Prod.fst).take j)[k] = (ms.map Prod.fst)[k] :=
    List.getElem_take ..
  have hmapj : (ms.map Prod.fst)[j] = (ms.get ⟨j, hj⟩).1 := by
    rw [List.getElem_map, List.get_eq_getElem]
  have heq2 : (ms.map Prod.fst)[k] = (ms.map Prod.fst)[j] := by
    rw [hmapj, ← hke, hget]
  have := (hnd.getElem_inj_iff).mp heq2
  omega

/-- **C8**: For every ordered metrics mapping and every result record,
metric expressions are evaluated in declaration order, each result being
inserted into the record before the next metric is evaluated (first
conjunct), so a metric referencing an earlier-declared metric in the same
record reads that metric's already-computed value — computed from its own
prefix record — never a stale or undefined one (second conjunct; the
metric names are distinct and unclaimed by the raw record). -/
theorem metrics_declaration_order (ms : List Metric) (rec0 : MetricRecord)
    (hnd : (ms.map Prod.fst).Nodup)
    (hfresh : ∀ p ∈ ms, lookupVal rec0 p.1 = none)
    (i j : Nat) (hi : i < ms.length) (hj : j < i) :
    evalMetrics ms rec0 =
      evalMetrics (ms.drop (i + 1))
        ((evalMetrics (ms.take i) rec0) ++
          [((ms.get ⟨i, hi⟩).1,
            (ms.get ⟨i, hi⟩).2 (evalMetrics (ms.take i) rec0))])
    ∧ lookupVal (evalMetrics (ms.take i) rec0)
        ((ms.get ⟨j, Nat.lt_trans hj hi⟩).1) =
      some ((ms.get ⟨j, Nat.lt_trans hj hi⟩).2
        (evalMetrics (ms.take j) rec0)) := by
  have hjm : j < ms.length := Nat.lt_trans hj hi
  constructor
  · have hsplit : ms = ms.take i ++ ms.get ⟨i, hi⟩ :: ms.drop (i + 1) := by
      conv_lhs => rw [← List.take_append_drop i ms]
      rw [List.drop_eq_getElem_cons hi, List.get_eq_getElem]
    conv_lhs => rw [hsplit]
    rw [evalMetrics_append, evalMetrics_cons]
  · have hjt : j < (ms.take i).length := by
      rw [List.length_take]
      omega
    have hsplit2 : ms.take i =
        ms.take j ++ ms.get ⟨j, hjm⟩ :: (ms.take i).drop (j + 1) := by
      conv_lhs => rw [← List.take_append_drop j (ms.take i)]
      rw [List.drop_eq_getElem_cons hjt, List.take_take,
        Nat.min_eq_left (Nat.le_of_lt hj), List.get_eq_getElem]
      have : (ms.take i)[j] = ms[j] := List.getElem_take ..
      rw [this]
    rw [hsplit2, evalMetrics_append, evalMetrics_cons]
    obtain ⟨t, ht, htk⟩ :=
      evalMetrics_grows ((ms.take i).drop (j + 1))
        (evalMetrics (ms.take j) rec0 ++
          [((ms.get ⟨j, hjm⟩).1,
            (ms.get ⟨j, hjm⟩).2 (evalMetrics (ms.take j) rec0))])
    rw [ht]
    apply lookupVal_append_left
    obtain ⟨t0, ht0, ht0k⟩ := evalMetrics_grows (ms.take j) rec0
    have hmemj : ms.get ⟨j, hjm⟩ ∈ ms := by
      rw [List.get_eq_getElem]
      exact List.getElem_mem hjm
    have hnotin : (ms.get ⟨j, hjm⟩).1 ∉
        (evalMetrics (ms.take j) rec0).map Prod.fst := by
      rw [ht0, List.map_append, List.mem_append, not_or]
      constructor
      · exact not_mem_of_lookupVal_none (hfresh _ hmemj)
      · rw [ht0k]
        exact metric_name_not_in_take hnd hjm
    rw [lookupVal_append_right hnotin]
    show (if (ms.get ⟨j, hjm⟩).1 = (ms.get ⟨j, hjm⟩).1
      then some ((ms.get ⟨j, hjm⟩).2 (evalMetrics (ms.take j) rec0))
      else lookupVal [] ((ms.get ⟨j, hjm⟩).1)) = _
    rw [if_pos rfl]

/-- Witness for C8: the notebook's composable metrics over the record
`{"time": 2}` — the `GB/s` metric, declared third, reads the `time_s`
value `2/1000` computed and inserted by the second metric. -/
theorem metrics_declaration_order_witness :
    lookupVal (evalMetrics (notebookMetrics.take 2) [("time", 2)])
        ((notebookMetrics.get ⟨1, by decide⟩).1) =
      some ((notebookMetrics.get ⟨1, by decide⟩).2
        (evalMetrics (notebookMetrics.take 1) [("time", 2)])) :=
  (metrics_declaration_order notebookMetrics [("time", 2)] (by decide)
    (by
      intro p hp
      simp only [notebookMetrics, List.mem_cons,
        List.not_mem_nil, or_false] at hp
      rcases hp with rfl | rfl | rfl <;> rfl)
    2 1 (by decide) (by decide)).2

/-! ## Claim C9 -/

/-- A `getD` over a list with an in-list default always yields a list
element. -/
theorem getD_mem {α : Type} {l : List α} {d : α} (hd : d ∈ l) (i : Nat) :
    l.getD i d ∈ l := by
  by_cases h : i < l.length
  · rw [List.getD_eq_getElem l d h]
    exact List.getElem_mem h
  · rw [List.getD_eq_default l d (by omega)]
    exact hd

/-- Every configuration emitted by the seeded random-sample strategy lies
in the configuration space. -/
theorem randomSample_mem (budget : Nat) (space : List Config) :
    ∀ (seed : Nat) (cfg : Config),
      cfg ∈ randomSampleStrategy seed space budget → cfg ∈ space := by
  induction budget with
  | zero =>
      intro seed cfg h
      cases space with
      | nil => cases h
      | cons c cs => cases h
  | succ b ih =>
      intro seed cfg h
      cases space with
      | nil => cases h
      | cons c cs =>
          rw [show randomSampleStrategy seed (c :: cs) (b + 1) =
              ((c :: cs).getD (lcgNext seed % (cs.length + 1)) c) ::
                randomSampleStrategy (lcgNext seed) (c :: cs) b from rfl] at h
          rcases List.mem_cons.mp h with heq | hmem
          · rw [heq]
            exact getD_mem (List.mem_cons_self c cs)
              (lcgNext seed % (cs.length + 1))
          · exact ih (lcgNext seed) cfg hmem

/-- **C9**: For every stochastic Search Strategy run (modelled by the
seeded random sampler), two runs with the same random seed over the same
Configuration Space and budget produce the same ordered sequence of
configurations to evaluate, each drawn from the space; no optimality claim
is made. -/
theorem stochastic_seed_deterministic (seed1 seed2 : Nat)
    (space : List Config) (budget : Nat) (hseed : seed1 = seed2) :
    randomSampleStrategy seed1 space budget =
      randomSampleStrategy seed2 space budget
    ∧ (∀ cfg ∈ randomSampleStrategy seed1 space budget, cfg ∈ space) := by
  subst hseed
  exact ⟨rfl, fun cfg h => randomSample_mem budget space seed1 cfg h⟩

/-- Witness for C9: seed 42 over a two-configuration space with budget 3. -/
theorem stochastic_seed_deterministic_witness :
    randomSampleStrategy 42
        [[("block_size_x", 32)], [("block_size_x", 64)]] 3 =
      randomSampleStrategy 42
        [[("block_size_x", 32)], [("block_size_x", 64)]] 3 :=
  (stochastic_seed_deterministic 42 42
    [[("block_size_x", 32)], [("block_size_x", 64)]] 3 rfl).1

end KernelTuner
